import Mathlib

/-!
Verification development for the vscavator extension-analysis pipeline
(`analyze.py` / `util.py`).  The pipeline's pure data transformations are
embedded directly; filesystem state is an explicit `Scratch` record, the
object store and the two external tools (npm audit, semgrep) are an explicit
`Env`, and Python exceptions are an explicit `PyErr` error type threaded
through `Except`.
-/

/-- Paths, identifiers and file payloads are modelled as lists of characters
so that the string manipulations of the source (`str.replace`,
`os.path.splitext`, concatenation) can be reasoned about directly. -/
abbrev Str := List Char

/-- Fuel-driven worker for `replaceList`; the fuel is an upper bound on the
length of the remaining input, which makes the recursion structural. -/
def replaceAux (pat repl : Str) : Nat → Str → Str
  | _, [] => []
  | 0, l => l
  | fuel + 1, c :: rest =>
    if pat.isPrefixOf (c :: rest) ∧ pat ≠ [] then
      repl ++ replaceAux pat repl fuel ((c :: rest).drop pat.length)
    else
      c :: replaceAux pat repl fuel rest

/-- Python's `str.replace(pat, repl)` for a non-empty `pat`: replaces every
non-overlapping occurrence, scanning left to right.  (For `pat = []` this
returns the input unchanged; the source only ever replaces `"/"` and
`".vsix"`.) -/
def replaceList (pat repl l : Str) : Str :=
  replaceAux pat repl l.length l

/-- Python's `os.path.join(a, b)` for the cases used by the source: if `b` is
absolute it wins, otherwise the two parts are joined with a separator. -/
def pathJoin (a b : Str) : Str :=
  if b.head? = some '/' then b else a ++ '/' :: b

/-- Python's `str.rfind(c)`: index of the last occurrence of `c`, if any. -/
def rfindIdx (c : Char) (l : Str) : Option Nat :=
  match l.reverse.findIdx? (· == c) with
  | none => none
  | some k => some (l.length - 1 - k)

/-- Python's `os.path.splitext`: splits at the last `'.'` provided it lies
after the last `'/'` and the base name does not consist solely of dots up to
that point (hidden-file rule). -/
def splitext (p : Str) : Str × Str :=
  match rfindIdx '.' p with
  | none => (p, [])
  | some d =>
    let fStart : Nat := match rfindIdx '/' p with | none => 0 | some si => si + 1
    let sepOk : Bool := match rfindIdx '/' p with | none => true | some si => decide (si < d)
    if sepOk && ((p.take d).drop fStart).any (fun ch => !(ch == '.')) then
      (p.take d, p.drop d)
    else
      (p, [])

/-- Write-or-overwrite in an association list keyed by path (the semantics of
writing a file / extracting into a directory with `exist_ok=True`). -/
def setAssoc {α : Type} (k : Str) (v : α) : List (Str × α) → List (Str × α)
  | [] => [(k, v)]
  | (k2, v2) :: rest => if k2 = k then (k, v) :: rest else (k2, v2) :: setAssoc k v rest

/-- Path lookup in an association list. -/
def lookupAssoc {α : Type} (k : Str) : List (Str × α) → Option α
  | [] => none
  | (k2, v2) :: rest => if k2 = k then some v2 else lookupAssoc k rest

/-- The Python exceptions that the source can raise or absorb. -/
inductive PyErr where
  /-- `botocore` raises when `download_file` cannot fetch the object. -/
  | fetchError (key : Str)
  /-- `zipfile.is_zipfile` on a path that does not exist. -/
  | fileNotFoundError
  /-- `None.get(...)` — `'NoneType' object has no attribute 'get'`. -/
  | attributeError
  /-- Indexing a `dict` with a missing key. -/
  | keyError (k : String)
  /-- `json.loads` on a string that is not valid JSON. -/
  | jsonDecodeError
deriving DecidableEq

/-- A parsed `package.json`: the two optional keys the source reads
(`dict.get` with a default). -/
structure PackageJson where
  dependencies : Option (List (Str × Str))
  activationEvents : Option (List Str)
deriving DecidableEq

/-- What `find_package_json`'s `os.walk` would recover from an extracted
tree: the first `package.json` it finds, if any. -/
abbrev ExtractedTree := Option PackageJson

/-- A `.vsix` object as stored in S3: whether `zipfile.is_zipfile` accepts it,
and the tree that extraction would produce. -/
structure Vsix where
  isZip : Bool
  tree : ExtractedTree
deriving DecidableEq

/-- The scratch filesystem under `extensions/`: downloaded archives
(`extensions/vsix/...`), extracted trees (`extensions/unzipped/...`) and the
synthetic manifest (`extensions/packages/package.json`). -/
structure Scratch where
  vsix : List (Str × Vsix)
  unzipped : List (Str × ExtractedTree)
  packages : Option (List (Str × Str))
deriving DecidableEq

/-- The scratch area with no contents. -/
def emptyScratch : Scratch := { vsix := [], unzipped := [], packages := none }

/-- One semgrep finding; `message` models `result["extra"]["message"]`. -/
structure SemgrepResult where
  message : Str
deriving DecidableEq

/-- Parsed semgrep JSON output; `results` is `none` when the dict has no
`"results"` key (as in the `{}` returned after a tool failure). -/
structure SemgrepJson where
  results : Option (List SemgrepResult)
deriving DecidableEq

/-- One `npm audit` advisory; every field is read with `dict.get` and may be
absent. -/
structure AdvisoryEntry where
  module_name : Option Str
  severity : Option Str
  title : Option Str
  url : Option Str
deriving DecidableEq

/-- Parsed `npm audit` JSON output; `advisories` is `none` when the dict has
no `"advisories"` key (`audit_json.get("advisories", {})` then defaults). -/
structure AuditJson where
  advisories : Option (List AdvisoryEntry)
deriving DecidableEq

/-- One parsed vulnerability as assembled by `parse_audit_result`. -/
structure ParsedVuln where
  package : Option Str
  severity : Option Str
  title : Option Str
  url : Option Str
deriving DecidableEq

/-- Outcome of one external tool invocation: the subprocess exits non-zero
(`CalledProcessError`), or it exits zero and its stdout either fails or
succeeds to parse as JSON. -/
inductive ToolResult (α : Type) where
  | procError
  | output (parsed : Option α)

/-- One row of the combined releases/extensions/publishers dataframe. -/
structure Row where
  release_id : Str
  publisher_name : Str
  extension_name : Str
  version : Str
  uploaded_to_s3 : Bool
deriving DecidableEq

/-- One analysis record / one row of the `analyses` table. -/
structure AnalysisRecord where
  analysis_id : Str
  release_id : Str
  insertion_date : Str
  dependencies : List (Str × Str)
  activation_events : List Str
  npm_audit_vulnerabilities : List ParsedVuln
  semgrep_detections : List Str
deriving DecidableEq

/-- The external world of one run: the object store plus the outcomes of the
two tool invocations and the current date. -/
structure Env where
  s3 : Str → Option Vsix
  npmAudit : ToolResult AuditJson
  semgrep : ToolResult SemgrepJson
  today : Str

/-- `true` iff the computation completed without a Python exception. -/
def isOkE {ε α : Type} : Except ε α → Bool
  | Except.ok _ => true
  | Except.error _ => false

/-- The value of a successful computation, if any. -/
def okPart {ε α : Type} : Except ε α → Option α
  | Except.ok a => some a
  | Except.error _ => none

/-- `object_key.replace("/", "-")`. -/
def dashKey (key : Str) : Str := replaceList "/".data "-".data key

/-- The local download destination used by both `download_vsix_file` and
`unzip_vsix_file`: `"extensions/vsix/" + object_key.replace("/", "-")`. -/
def vsixPath (key : Str) : Str := "extensions/vsix/".data ++ dashKey key

/-- The directory `unzip_vsix_file` extracts into:
`os.path.join("extensions/unzipped", os.path.splitext(object_key)[0])`. -/
def unzipFolder (key : Str) : Str :=
  pathJoin "extensions/unzipped".data (splitext key).1

/-- The directory `find_package_json` walks:
`"extensions/unzipped/" + object_key.replace(".vsix", "")`. -/
def findFolder (key : Str) : Str :=
  "extensions/unzipped/".data ++ replaceList ".vsix".data [] key

/-- `download_vsix_file`: fetch the S3 object into the scratch area; a
missing object raises (botocore) and nothing is written. -/
def download_vsix_file (env : Env) (object_key : Str) (s : Scratch) :
    Except PyErr Scratch :=
  match env.s3 object_key with
  | none => Except.error (PyErr.fetchError object_key)
  | some v => Except.ok { s with vsix := setAssoc (vsixPath object_key) v s.vsix }

/-- `unzip_vsix_file`: if the downloaded file passes `zipfile.is_zipfile`,
extract it into `unzipFolder`; otherwise do nothing.  `is_zipfile` on a
missing path raises `FileNotFoundError`. -/
def unzip_vsix_file (object_key : Str) (s : Scratch) : Except PyErr Scratch :=
  match lookupAssoc (vsixPath object_key) s.vsix with
  | none => Except.error PyErr.fileNotFoundError
  | some v =>
    if v.isZip then
      Except.ok { s with unzipped := setAssoc (unzipFolder object_key) v.tree s.unzipped }
    else
      Except.ok s

/-- `find_package_json`: walk `findFolder` for the first `package.json`;
returns `none` (after logging) when the folder is missing or contains no
manifest — it does not raise. -/
def find_package_json (object_key : Str) (s : Scratch) : Option PackageJson :=
  match lookupAssoc (findFolder object_key) s.unzipped with
  | none => none
  | some t => t

/-- The dictionary `extract_package_metadata` returns. -/
structure PackageMetadata where
  dependencies : List (Str × Str)
  activation_events : List Str
deriving DecidableEq

/-- `extract_package_metadata`: reads the two keys with `dict.get` defaults.
Called with `None` (no manifest found) it raises `AttributeError`, since
`None` has no `.get`. -/
def extract_package_metadata : Option PackageJson → Except PyErr PackageMetadata
  | none => Except.error PyErr.attributeError
  | some pj =>
    Except.ok { dependencies := pj.dependencies.getD []
                activation_events := pj.activationEvents.getD [] }

/-- `create_package_json_file`: writes the synthetic manifest into
`extensions/packages/package.json`. -/
def create_package_json_file (deps : List (Str × Str)) (s : Scratch) : Scratch :=
  { s with packages := some deps }

/-- `install_package_lock_only`: runs `npm install --package-lock-only`; its
`CalledProcessError` is caught and logged, so the function never raises.  The
generated lockfile artifact itself is not consulted by any later modelled
step (the audit outcome is part of `Env`), so it is not tracked in
`Scratch`. -/
def install_package_lock_only (_env : Env) (s : Scratch) : Scratch := s

/-- `run_npm_audit`: a non-zero exit (`CalledProcessError`) is caught and
`{}` is returned; stdout that is not valid JSON raises `JSONDecodeError`
(only `CalledProcessError` is caught). -/
def run_npm_audit (env : Env) : Except PyErr AuditJson :=
  match env.npmAudit with
  | ToolResult.procError => Except.ok { advisories := none }
  | ToolResult.output none => Except.error PyErr.jsonDecodeError
  | ToolResult.output (some j) => Except.ok j

/-- `parse_audit_result`: `audit_json.get("advisories", {})`, then one
`ParsedVuln` per advisory with `dict.get` on each field. -/
def parse_audit_result (j : AuditJson) : List ParsedVuln :=
  (j.advisories.getD []).map
    (fun a => { package := a.module_name, severity := a.severity
                title := a.title, url := a.url })

/-- `semgrep_analysis`: a non-zero exit (`CalledProcessError`) is caught and
`{}` is returned; stdout that is not valid JSON raises `JSONDecodeError`. -/
def semgrep_analysis (env : Env) : Except PyErr SemgrepJson :=
  match env.semgrep with
  | ToolResult.procError => Except.ok { results := none }
  | ToolResult.output none => Except.error PyErr.jsonDecodeError
  | ToolResult.output (some j) => Except.ok j

/-- One step of the deduplication loop in `extract_semgrep_metadata`:
append the message unless it is already present. -/
def dedupStep (acc : List Str) (m : Str) : List Str :=
  if m ∈ acc then acc else acc ++ [m]

/-- The deduplication loop of `extract_semgrep_metadata`. -/
def dedupMessages (msgs : List Str) : List Str := msgs.foldl dedupStep []

/-- `extract_semgrep_metadata`: indexes `semgrep_output["results"]` directly
(raising `KeyError` when the key is absent, as it is in the `{}` produced
after a tool failure), then deduplicates the messages preserving first-seen
order. -/
def extract_semgrep_metadata (j : SemgrepJson) : Except PyErr (List Str) :=
  match j.results with
  | none => Except.error (PyErr.keyError "results")
  | some rs => Except.ok (dedupMessages (rs.map SemgrepResult.message))

/-- `clear_directory`: deletes every entry under `extensions/`. -/
def clear_directory (_s : Scratch) : Scratch := emptyScratch

/-- The analysis identifier: `"analysis-" + row["release_id"]`. -/
def derive_analysis_id (release_id : Str) : Str := "analysis-".data ++ release_id

/-- The object key
`f"extensions/{publisher_name}/{extension_name}/{release_version}.vsix"`. -/
def objectKeyOf (row : Row) : Str :=
  "extensions/".data ++ row.publisher_name ++ "/".data ++ row.extension_name
    ++ "/".data ++ row.version ++ ".vsix".data

/-- `analyze_extension`: the per-release pipeline.  Any uncaught exception in
a step propagates immediately (there is no `try`/`finally`), leaving the
scratch area as it was at the point of failure; `clear_directory` runs only
on the success path, just before the record is returned. -/
def analyze_extension (env : Env) (row : Row) (s0 : Scratch) :
    Except PyErr AnalysisRecord × Scratch :=
  let object_key := objectKeyOf row
  match download_vsix_file env object_key s0 with
  | Except.error e => (Except.error e, s0)
  | Except.ok s1 =>
    match unzip_vsix_file object_key s1 with
    | Except.error e => (Except.error e, s1)
    | Except.ok s2 =>
      match extract_package_metadata (find_package_json object_key s2) with
      | Except.error e => (Except.error e, s2)
      | Except.ok meta =>
        let sMid := install_package_lock_only env
          (create_package_json_file meta.dependencies s2)
        match run_npm_audit env with
        | Except.error e => (Except.error e, sMid)
        | Except.ok audit_json =>
          match semgrep_analysis env with
          | Except.error e => (Except.error e, sMid)
          | Except.ok sj =>
            match extract_semgrep_metadata sj with
            | Except.error e => (Except.error e, sMid)
            | Except.ok dets =>
              (Except.ok
                { analysis_id := derive_analysis_id row.release_id
                  release_id := row.release_id
                  insertion_date := env.today
                  dependencies := meta.dependencies
                  activation_events := meta.activation_events
                  npm_audit_vulnerabilities := parse_audit_result audit_json
                  semgrep_detections := dets },
               clear_directory sMid)

/-- The eligibility test of the orchestrator loop:
`row["uploaded_to_s3"] and row["release_id"] not in analyzed_release_ids`. -/
def eligible (analyzed : List Str) (row : Row) : Bool :=
  row.uploaded_to_s3 && !(analyzed.contains row.release_id)

/-- The orchestrator loop of `main`, with an explicit trace (second
component) of the release identifiers for which `analyze_extension` was
invoked.  An exception raised by `analyze_extension` is not caught, so it
aborts the whole loop. -/
def processFrom (env : Env) (analyzed : List Str) :
    List Row → Scratch → List AnalysisRecord → List Str →
      Except PyErr (List AnalysisRecord) × List Str
  | [], _, acc, tr => (Except.ok acc, tr)
  | row :: rest, s, acc, tr =>
    if eligible analyzed row then
      match analyze_extension env row s with
      | (Except.error e, _) => (Except.error e, tr ++ [row.release_id])
      | (Except.ok rec, s2) =>
        processFrom env analyzed rest s2 (acc ++ [rec]) (tr ++ [row.release_id])
    else
      processFrom env analyzed rest s acc tr

/-- `main`'s analysis phase: process every combined row sequentially,
starting from an empty scratch area, and collect the produced records. -/
def mainAnalyze (env : Env) (analyzed : List Str) (rows : List Row) :
    Except PyErr (List AnalysisRecord) × List Str :=
  processFrom env analyzed rows emptyScratch [] []

/-- One row of the SQL upsert: `INSERT ... ON CONFLICT (analysis_id) DO
UPDATE` — replace the row with the same `analysis_id` if present, otherwise
insert. -/
def upsertRow (t : List AnalysisRecord) (r : AnalysisRecord) : List AnalysisRecord :=
  if t.any (fun x => x.analysis_id == r.analysis_id) then
    t.map (fun x => if x.analysis_id == r.analysis_id then r else x)
  else
    t ++ [r]

/-- `upsert_analyses`: the records are upserted in order (the batching by
5000 only groups consecutive rows, so the overall effect is the ordered
fold). -/
def upsert_analyses (t : List AnalysisRecord) (records : List AnalysisRecord) :
    List AnalysisRecord :=
  records.foldl upsertRow t

instance {ε α : Type} [DecidableEq ε] [DecidableEq α] : DecidableEq (Except ε α) :=
  fun x y =>
  match x, y with
  | Except.ok a, Except.ok b =>
    match decEq a b with
    | isTrue h => isTrue (by rw [h])
    | isFalse h => isFalse (by intro hh; cases hh; exact h rfl)
  | Except.error a, Except.error b =>
    match decEq a b with
    | isTrue h => isTrue (by rw [h])
    | isFalse h => isFalse (by intro hh; cases hh; exact h rfl)
  | Except.ok _, Except.error _ => isFalse (by intro hh; cases hh)
  | Except.error _, Except.ok _ => isFalse (by intro hh; cases hh)

/-- Index of the first occurrence of `a` (length of the list when absent):
the "first-occurrence order" yardstick of the deduplication claim. -/
def firstIdx (a : Str) : List Str → Nat
  | [] => 0
  | x :: l => if x = a then 0 else firstIdx a l + 1

/-! ### Concrete test fixtures

A release `r1` whose archive is a valid zip containing no `package.json`, a
release `r2` whose archive contains the manifest of the spec's walk-through
scenario, and environments differing only in the tool outcomes. -/

/-- A valid zip archive whose extracted tree contains no `package.json`. -/
def vsixNoManifest : Vsix := { isZip := true, tree := none }

/-- The manifest of the spec's scenario:
`{"dependencies": {"lodash": "^4.0.0"}, "activationEvents": ["onStartup"]}`. -/
def pjGood : PackageJson :=
  { dependencies := some [("lodash".data, "^4.0.0".data)]
    activationEvents := some ["onStartup".data] }

/-- A valid zip archive containing `pjGood`. -/
def vsixGood : Vsix := { isZip := true, tree := some pjGood }

/-- Release `r1`, uploaded, version `1.0.0`. -/
def rowR1 : Row :=
  { release_id := "r1".data, publisher_name := "acme".data
    extension_name := "tool".data, version := "1.0.0".data, uploaded_to_s3 := true }

/-- Release `r2`, uploaded, version `2.0.0`. -/
def rowR2 : Row :=
  { release_id := "r2".data, publisher_name := "acme".data
    extension_name := "tool".data, version := "2.0.0".data, uploaded_to_s3 := true }

/-- Release `r3`, not uploaded to S3. -/
def rowR3 : Row :=
  { release_id := "r3".data, publisher_name := "acme".data
    extension_name := "tool".data, version := "3.0.0".data, uploaded_to_s3 := false }

/-- `extensions/acme/tool/1.0.0.vsix`. -/
def keyR1 : Str := objectKeyOf rowR1

/-- `extensions/acme/tool/2.0.0.vsix`. -/
def keyR2 : Str := objectKeyOf rowR2

/-- A semgrep run that parsed fine and reported no findings. -/
def semgrepEmpty : ToolResult SemgrepJson :=
  ToolResult.output (some { results := some [] })

/-- An npm audit that parsed fine and reported one advisory (the spec's
scenario advisory for `lodash`). -/
def auditLodash : ToolResult AuditJson :=
  ToolResult.output (some
    { advisories := some
        [{ module_name := some "lodash".data, severity := some "high".data
           title := some "prototype pollution".data
           url := some "http://example.com".data }] })

/-- Environment for `r1`: the archive is a zip with no manifest inside. -/
def envNoManifest : Env :=
  { s3 := fun k => if k = keyR1 then some vsixNoManifest else none
    npmAudit := ToolResult.procError
    semgrep := semgrepEmpty
    today := "2026-10-12".data }

/-- Environment for `r2` where everything succeeds (the spec's scenario). -/
def envGood : Env :=
  { s3 := fun k => if k = keyR2 then some vsixGood else none
    npmAudit := auditLodash
    semgrep := semgrepEmpty
    today := "2026-10-12".data }

/-- Environment for `r2` where the semgrep subprocess exits non-zero. -/
def envSemErr : Env :=
  { s3 := fun k => if k = keyR2 then some vsixGood else none
    npmAudit := ToolResult.procError
    semgrep := ToolResult.procError
    today := "2026-10-12".data }

/-- Environment for `r2` where `npm audit` exits zero but its stdout is not
valid JSON. -/
def envAuditBadJson : Env :=
  { s3 := fun k => if k = keyR2 then some vsixGood else none
    npmAudit := ToolResult.output none
    semgrep := semgrepEmpty
    today := "2026-10-12".data }

/-- The record `analyze_extension` produces for `r2` under `envGood` —
exactly the expected record of the spec's walk-through scenario. -/
def recGood : AnalysisRecord :=
  { analysis_id := "analysis-r2".data
    release_id := "r2".data
    insertion_date := "2026-10-12".data
    dependencies := [("lodash".data, "^4.0.0".data)]
    activation_events := ["onStartup".data]
    npm_audit_vulnerabilities :=
      [{ package := some "lodash".data, severity := some "high".data
         title := some "prototype pollution".data
         url := some "http://example.com".data }]
    semgrep_detections := [] }

/-- The spec's walk-through scenario: under `envGood` the pipeline for `r2`
produces exactly the expected record and hands back an empty scratch. -/
theorem analyze_extension_scenario :
    analyze_extension envGood rowR2 emptyScratch =
      (Except.ok recGood, emptyScratch) := rfl

/-- C1: the manifest-lookup step itself returns "not found" without raising,
but the very next step, `extract_package_metadata(None)`, raises
`AttributeError` (`None` has no `.get`), so a release whose extracted tree
contains no manifest aborts its pipeline run instead of proceeding with an
`AnalysisRecord` carrying empty dependency and activation-event metadata. -/
theorem c1_missing_manifest_aborts :
    find_package_json keyR1
      { vsix := [(vsixPath keyR1, vsixNoManifest)]
        unzipped := [(unzipFolder keyR1, none)]
        packages := none } = none ∧
    extract_package_metadata none = Except.error PyErr.attributeError ∧
    (analyze_extension envNoManifest rowR1 emptyScratch).1 =
      Except.error PyErr.attributeError := by
  exact ⟨rfl, rfl, rfl⟩

/-- C3: when the semgrep subprocess exits non-zero, `semgrep_analysis`
catches the error and returns `{}` — but `extract_semgrep_metadata` then
indexes `{}["results"]` and raises `KeyError`, so the static-analysis
failure is fatal to the release's pipeline run instead of degrading to an
empty findings list. -/
theorem c3_semgrep_failure_is_fatal :
    semgrep_analysis envSemErr = Except.ok { results := none } ∧
    extract_semgrep_metadata { results := none } =
      Except.error (PyErr.keyError "results") ∧
    (analyze_extension envSemErr rowR2 emptyScratch).1 =
      Except.error (PyErr.keyError "results") := by
  exact ⟨rfl, rfl, rfl⟩

/-- C8 counterexample: an audit invocation whose output is malformed (exit
code zero, stdout not valid JSON) raises `JSONDecodeError` — only
`CalledProcessError` is caught — and that exception aborts the release's
pipeline run, contradicting "any audit invocation failure … is treated as
empty audit results and never aborts the pipeline". -/
theorem c8_malformed_audit_output_aborts :
    run_npm_audit envAuditBadJson = Except.error PyErr.jsonDecodeError ∧
    (analyze_extension envAuditBadJson rowR2 emptyScratch).1 =
      Except.error PyErr.jsonDecodeError := by
  exact ⟨rfl, rfl⟩

/-- C8 amended: an audit tool error (non-zero exit, including the exit that
follows a failed lockfile resolution) is caught, `{}` is returned, and
parsing `{}` yields an empty vulnerabilities list, so that failure mode does
not abort the release. -/
theorem c8_tool_error_degrades (env : Env)
    (h : env.npmAudit = ToolResult.procError) :
    run_npm_audit env = Except.ok { advisories := none } ∧
    parse_audit_result { advisories := none } = [] := by
  refine ⟨?_, rfl⟩
  unfold run_npm_audit
  rw [h]

/-- Witness for `c8_tool_error_degrades` at the concrete environment
`envSemErr`, whose `npm audit` invocation exits non-zero. -/
theorem c8_tool_error_degrades_witness :
    envSemErr.npmAudit = ToolResult.procError ∧
    (run_npm_audit envSemErr = Except.ok { advisories := none } ∧
      parse_audit_result { advisories := none } = []) :=
  ⟨rfl, c8_tool_error_degrades envSemErr rfl⟩

/-- C9: a downloaded file that exists but is not a valid zip archive
(`zipfile.is_zipfile` returns `False`) makes `unzip_vsix_file` extract
nothing and return without raising: the scratch area is unchanged. -/
theorem c9_non_archive_extracts_nothing (object_key : Str) (s : Scratch)
    (v : Vsix) (hfile : lookupAssoc (vsixPath object_key) s.vsix = some v)
    (hnz : v.isZip = false) :
    unzip_vsix_file object_key s = Except.ok s := by
  unfold unzip_vsix_file
  rw [hfile]
  simp [hnz]

/-- Witness for `c9_non_archive_extracts_nothing`: a scratch area holding a
corrupt (non-zip) download for `r1`. -/
theorem c9_non_archive_witness :
    lookupAssoc (vsixPath keyR1)
      (Scratch.vsix { vsix := [(vsixPath keyR1, { isZip := false, tree := none })]
                      unzipped := [], packages := none }) =
        some { isZip := false, tree := none } ∧
    unzip_vsix_file keyR1
      { vsix := [(vsixPath keyR1, { isZip := false, tree := none })]
        unzipped := [], packages := none } =
      Except.ok
        { vsix := [(vsixPath keyR1, { isZip := false, tree := none })]
          unzipped := [], packages := none } :=
  ⟨rfl, c9_non_archive_extracts_nothing keyR1 _ _ rfl rfl⟩

/-- C4 counterexample: `clear_directory` is not in a `finally` block, so on
the `AttributeError` exit path of `r1` (zip without manifest) the scratch
area still holds the downloaded archive and the extracted tree — it is not
deleted on every exit path. -/
theorem c4_failure_leaves_scratch_dirty :
    (analyze_extension envNoManifest rowR1 emptyScratch).1 =
      Except.error PyErr.attributeError ∧
    (analyze_extension envNoManifest rowR1 emptyScratch).2 ≠ emptyScratch := by
  exact ⟨rfl, by decide⟩

/-- On the success path — and only there — `analyze_extension` ends by
calling `clear_directory`, so a successful run hands back an empty scratch
area. -/
theorem analyze_ok_clears (env : Env) (row : Row) (s : Scratch)
    (h : isOkE (analyze_extension env row s).1 = true) :
    (analyze_extension env row s).2 = emptyScratch := by
  unfold analyze_extension at h ⊢
  dsimp only at h ⊢
  cases hd : download_vsix_file env (objectKeyOf row) s with
  | error e => rw [hd] at h; simp [isOkE] at h
  | ok s1 =>
    rw [hd] at h
    dsimp only at h ⊢
    cases hu : unzip_vsix_file (objectKeyOf row) s1 with
    | error e => rw [hu] at h; simp [isOkE] at h
    | ok s2 =>
      rw [hu] at h
      dsimp only at h ⊢
      cases hm : extract_package_metadata (find_package_json (objectKeyOf row) s2) with
      | error e => rw [hm] at h; simp [isOkE] at h
      | ok meta =>
        rw [hm] at h
        dsimp only at h ⊢
        cases ha : run_npm_audit env with
        | error e => rw [ha] at h; simp [isOkE] at h
        | ok aj =>
          rw [ha] at h
          dsimp only at h ⊢
          cases hs : semgrep_analysis env with
          | error e => rw [hs] at h; simp [isOkE] at h
          | ok sj =>
            rw [hs] at h
            dsimp only at h ⊢
            cases hx : extract_semgrep_metadata sj with
            | error e => rw [hx] at h; simp [isOkE] at h
            | ok dets => rfl

/-- C4 amended: the scratch contents are deleted on the success path of the
per-release pipeline (so the next release starts from an empty scratch
area); on a failure the exception propagates without cleanup — and, the
orchestrator not catching it, the run aborts, so no next release begins. -/
theorem c4_success_clears_scratch (env : Env) (row : Row) (s : Scratch)
    (h : isOkE (analyze_extension env row s).1 = true) :
    (analyze_extension env row s).2 = emptyScratch :=
  analyze_ok_clears env row s h

/-- Witness for `c4_success_clears_scratch`: the fully successful `r2` run. -/
theorem c4_success_clears_scratch_witness :
    isOkE (analyze_extension envGood rowR2 emptyScratch).1 = true ∧
    (analyze_extension envGood rowR2 emptyScratch).2 = emptyScratch :=
  ⟨rfl, c4_success_clears_scratch envGood rowR2 emptyScratch rfl⟩

/-- C2 counterexample: under `envGood` release `r2` is eligible and its
pipeline succeeds on its own, producing its record — but in a run that
first meets `r1`, whose archive is absent from the object store
(`FetchError`), the uncaught exception aborts the whole loop: the run
errors out and `r2`'s record is never produced, contradicting "the
orchestrator skips only that release and continues to the next one". -/
theorem c2_fetch_failure_aborts_concrete :
    eligible [] rowR1 = true ∧ eligible [] rowR2 = true ∧
    (mainAnalyze envGood [] [rowR2]).1 = Except.ok [recGood] ∧
    (mainAnalyze envGood [] [rowR1, rowR2]).1 =
      Except.error (PyErr.fetchError keyR1) := ⟨rfl, rfl, rfl, rfl⟩

/-- The orchestrator loop aborts with the first uncaught per-release
exception: helper generalized over the accumulators. -/
theorem processFrom_aborts (env : Env) (analyzed : List Str) (row : Row)
    (post : List Row) (e : PyErr)
    (helig : eligible analyzed row = true)
    (herr : (analyze_extension env row emptyScratch).1 = Except.error e) :
    ∀ (pre : List Row) (acc : List AnalysisRecord) (tr : List Str),
      (∀ r ∈ pre, eligible analyzed r = true →
        isOkE (analyze_extension env r emptyScratch).1 = true) →
      (processFrom env analyzed (pre ++ row :: post) emptyScratch acc tr).1 =
        Except.error e := by
  intro pre
  induction pre with
  | nil =>
    intro acc tr _
    rcases hp : analyze_extension env row emptyScratch with ⟨res, s2⟩
    rw [hp] at herr
    dsimp only at herr
    subst herr
    simp [processFrom, helig, hp]
  | cons r pre ih =>
    intro acc tr hpre
    by_cases hr : eligible analyzed r = true
    · have hok2 := hpre r (by simp) hr
      rcases hp : analyze_extension env r emptyScratch with ⟨res, s2⟩
      cases res with
      | error e2 => rw [hp] at hok2; simp [isOkE] at hok2
      | ok rec =>
        have hs2 : s2 = emptyScratch := by
          have hcl := analyze_ok_clears env r emptyScratch (by rw [hp]; rfl)
          rw [hp] at hcl
          exact hcl
        subst hs2
        simp only [List.cons_append, processFrom, hr, if_true, hp]
        exact ih (acc ++ [rec]) (tr ++ [r.release_id])
          (fun r2 hmem he2 => hpre r2 (by simp [hmem]) he2)
    · have hr2 : eligible analyzed r = false := by simpa using hr
      simp only [List.cons_append, processFrom, hr2, Bool.false_eq_true, if_false]
      exact ih acc tr (fun r2 hmem he2 => hpre r2 (by simp [hmem]) he2)

/-- C2 amended: a per-release pipeline failure is not caught by the
orchestrator: as soon as an eligible release's `analyze_extension` raises
(all eligible releases before it having succeeded), the exception
propagates out of the loop and the whole run aborts with it. -/
theorem c2_failure_aborts_run (env : Env) (analyzed : List Str)
    (pre post : List Row) (row : Row) (e : PyErr)
    (hpre : ∀ r ∈ pre, eligible analyzed r = true →
      isOkE (analyze_extension env r emptyScratch).1 = true)
    (helig : eligible analyzed row = true)
    (herr : (analyze_extension env row emptyScratch).1 = Except.error e) :
    (mainAnalyze env analyzed (pre ++ row :: post)).1 = Except.error e := by
  unfold mainAnalyze
  exact processFrom_aborts env analyzed row post e helig herr pre [] [] hpre

/-- Witness for `c2_failure_aborts_run`: `r2` succeeds first, then `r1`'s
fetch fails and the run aborts. -/
theorem c2_failure_aborts_run_witness :
    (∀ r ∈ [rowR2], eligible [] r = true →
      isOkE (analyze_extension envGood r emptyScratch).1 = true) ∧
    eligible [] rowR1 = true ∧
    (analyze_extension envGood rowR1 emptyScratch).1 =
      Except.error (PyErr.fetchError keyR1) ∧
    (mainAnalyze envGood [] ([rowR2] ++ rowR1 :: [])).1 =
      Except.error (PyErr.fetchError keyR1) :=
  ⟨by decide, rfl, rfl,
    c2_failure_aborts_run envGood [] [rowR2] [] rowR1 (PyErr.fetchError keyR1)
      (by decide) rfl rfl⟩

/-- Upserting a record into a table that has at most one row with its key
leaves exactly one row with that key. -/
theorem countP_upsertRow (t : List AnalysisRecord) (rec : AnalysisRecord)
    (h : t.countP (fun x => x.analysis_id == rec.analysis_id) ≤ 1) :
    (upsertRow t rec).countP (fun x => x.analysis_id == rec.analysis_id) = 1 := by
  by_cases hany : t.any (fun x => x.analysis_id == rec.analysis_id) = true
  · unfold upsertRow
    rw [if_pos hany, List.countP_map]
    have hcomp :
        ((fun x => x.analysis_id == rec.analysis_id) ∘
          (fun x => if x.analysis_id == rec.analysis_id then rec else x)) =
        (fun x : AnalysisRecord => x.analysis_id == rec.analysis_id) := by
      funext x
      by_cases hx : x.analysis_id == rec.analysis_id
      · simp [Function.comp, hx]
      · simp [Function.comp, hx]
    rw [hcomp]
    have hpos : 0 < t.countP (fun x => x.analysis_id == rec.analysis_id) := by
      rw [List.countP_pos_iff]
      exact List.any_eq_true.mp hany
    omega
  · unfold upsertRow
    rw [if_neg hany]
    have hzero : t.countP (fun x => x.analysis_id == rec.analysis_id) = 0 := by
      rw [List.countP_eq_zero]
      intro a ha hpa
      exact hany (List.any_eq_true.mpr ⟨a, ha, hpa⟩)
    rw [List.countP_append, hzero]
    simp

/-- C5: the analysis identifier is the deterministic function
`"analysis-" + release_id`, and upserting the same record twice into a table
holding at most one row with that identifier leaves exactly one such row,
the upsert replacing the existing row on an `analysis_id` conflict. -/
theorem c5_upsert_idempotent (t : List AnalysisRecord) (r : Str)
    (rec : AnalysisRecord)
    (hkey : rec.analysis_id = derive_analysis_id r)
    (hinv : t.countP (fun x => x.analysis_id == derive_analysis_id r) ≤ 1) :
    derive_analysis_id r = "analysis-".data ++ r ∧
    (upsert_analyses t [rec, rec]).countP
      (fun x => x.analysis_id == derive_analysis_id r) = 1 := by
  refine ⟨rfl, ?_⟩
  rw [← hkey] at hinv ⊢
  have h1 := countP_upsertRow t rec hinv
  have h2 := countP_upsertRow (upsertRow t rec) rec (by omega)
  exact h2

/-- Witness for `c5_upsert_idempotent`: upserting the spec-scenario record
twice into an empty table. -/
theorem c5_upsert_idempotent_witness :
    recGood.analysis_id = derive_analysis_id "r2".data ∧
    ([] : List AnalysisRecord).countP
      (fun x => x.analysis_id == derive_analysis_id "r2".data) ≤ 1 ∧
    (upsert_analyses [] [recGood, recGood]).countP
      (fun x => x.analysis_id == derive_analysis_id "r2".data) = 1 :=
  ⟨rfl, by decide,
    (c5_upsert_idempotent [] "r2".data recGood rfl (by decide)).2⟩

/-- Membership in the dedup fold: exactly the elements of the accumulator
and of the input. -/
theorem mem_foldl_dedupStep (l : List Str) :
    ∀ (acc : List Str) (x : Str),
      x ∈ l.foldl dedupStep acc ↔ x ∈ acc ∨ x ∈ l := by
  induction l with
  | nil => intro acc x; simp
  | cons m rest ih =>
    intro acc x
    rw [List.foldl_cons, ih]
    unfold dedupStep
    by_cases hm : m ∈ acc
    · simp only [if_pos hm, List.mem_cons]
      constructor
      · rintro (h | h)
        · exact Or.inl h
        · exact Or.inr (Or.inr h)
      · rintro (h | rfl | h)
        · exact Or.inl h
        · exact Or.inl hm
        · exact Or.inr h
    · simp only [if_neg hm, List.mem_append, List.mem_singleton, List.mem_cons]
      tauto

/-- The dedup fold preserves freedom from duplicates. -/
theorem nodup_foldl_dedupStep (l : List Str) :
    ∀ acc : List Str, acc.Nodup → (l.foldl dedupStep acc).Nodup := by
  induction l with
  | nil => intro acc h; simpa using h
  | cons m rest ih =>
    intro acc h
    rw [List.foldl_cons]
    apply ih
    unfold dedupStep
    by_cases hm : m ∈ acc
    · rwa [if_pos hm]
    · rw [if_neg hm]
      simp [List.nodup_append, h, hm]

theorem firstIdx_append_of_mem {a : Str} {l1 : List Str} (l2 : List Str)
    (h : a ∈ l1) : firstIdx a (l1 ++ l2) = firstIdx a l1 := by
  induction l1 with
  | nil => cases h
  | cons x l ih =>
    by_cases hx : x = a
    · simp [firstIdx, hx]
    · have hmem : a ∈ l := by
        cases h with
        | head => exact absurd rfl hx
        | tail _ hh => exact hh
      simp [firstIdx, hx, ih hmem]

theorem firstIdx_append_of_not_mem {a : Str} {l1 : List Str} (l2 : List Str)
    (h : a ∉ l1) : firstIdx a (l1 ++ l2) = l1.length + firstIdx a l2 := by
  induction l1 with
  | nil => simp
  | cons x l ih =>
    have hx : x ≠ a := fun hc => h (hc ▸ List.mem_cons_self x l)
    have hmem : a ∉ l := fun hc => h (List.mem_cons_of_mem x hc)
    simp [firstIdx, hx, ih hmem]
    omega

theorem firstIdx_lt_length {a : Str} {l : List Str} (h : a ∈ l) :
    firstIdx a l < l.length := by
  induction l with
  | nil => cases h
  | cons x l ih =>
    by_cases hx : x = a
    · simp [firstIdx, hx]
    · have hmem : a ∈ l := by
        cases h with
        | head => exact absurd rfl hx
        | tail _ hh => exact hh
      simp [firstIdx, hx]
      exact ih hmem

/-- The dedup fold emits elements in order of first occurrence: provided the
accumulator holds exactly the elements of the already-consumed prefix, in
first-occurrence order, the final list is ordered by index of first
occurrence in the full list. -/
theorem pairwise_foldl_dedupStep (msgs : List Str) :
    ∀ (suf pre acc : List Str), msgs = pre ++ suf →
      (∀ a, a ∈ acc ↔ a ∈ pre) →
      acc.Pairwise (fun a b => firstIdx a msgs < firstIdx b msgs) →
      (suf.foldl dedupStep acc).Pairwise
        (fun a b => firstIdx a msgs < firstIdx b msgs) := by
  intro suf
  induction suf with
  | nil => intro pre acc _ _ hp; simpa using hp
  | cons m rest ih =>
    intro pre acc heq hmem hp
    rw [List.foldl_cons]
    by_cases hm : m ∈ acc
    · have hstep : dedupStep acc m = acc := by unfold dedupStep; rw [if_pos hm]
      rw [hstep]
      refine ih (pre ++ [m]) acc ?_ ?_ hp
      · rw [heq]; simp
      · intro a
        rw [hmem a]
        have hmpre : m ∈ pre := (hmem m).mp hm
        simp only [List.mem_append, List.mem_singleton]
        constructor
        · exact Or.inl
        · rintro (h | rfl)
          · exact h
          · exact hmpre
    · have hstep : dedupStep acc m = acc ++ [m] := by unfold dedupStep; rw [if_neg hm]
      rw [hstep]
      have hmpre : m ∉ pre := fun hc => hm ((hmem m).mpr hc)
      have hidxm : firstIdx m msgs = pre.length := by
        rw [heq, firstIdx_append_of_not_mem _ hmpre]
        simp [firstIdx]
      have hlt : ∀ a ∈ acc, firstIdx a msgs < firstIdx m msgs := by
        intro a ha
        have hapre : a ∈ pre := (hmem a).mp ha
        rw [hidxm, heq, firstIdx_append_of_mem _ hapre]
        exact firstIdx_lt_length hapre
      refine ih (pre ++ [m]) (acc ++ [m]) ?_ ?_ ?_
      · rw [heq]; simp
      · intro a
        simp only [List.mem_append, List.mem_singleton, hmem a]
      · rw [List.pairwise_append]
        refine ⟨hp, List.pairwise_singleton _ _, ?_⟩
        intro a ha b hb
        rw [List.mem_singleton] at hb
        subst hb
        exact hlt a ha

/-- In a duplicate-free list, every member is counted exactly once. -/
theorem countP_eq_one_of_nodup_mem {m : Str} {l : List Str}
    (hnd : l.Nodup) (hm : m ∈ l) :
    l.countP (fun x => decide (x = m)) = 1 := by
  induction l with
  | nil => cases hm
  | cons x l ih =>
    rw [List.countP_cons]
    rcases List.nodup_cons.mp hnd with ⟨hx, hl⟩
    by_cases hxm : x = m
    · subst hxm
      have hz : l.countP (fun y => decide (y = x)) = 0 := by
        rw [List.countP_eq_zero]
        intro a ha
        simp only [decide_eq_true_eq]
        exact fun hc => hx (hc ▸ ha)
      simp [hz]
    · have hml : m ∈ l := by
        cases hm with
        | head => exact absurd rfl hxm
        | tail _ h => exact h
      simp [ih hl hml, hxm]

/-- C6: the findings list extracted from parsed static-scan output contains
each distinct message exactly once (an input repeating a message any number
of times contributes it once), and the messages appear ordered by the index
of their first occurrence in the scan output. -/
theorem c6_semgrep_dedup (rs : List SemgrepResult) :
    extract_semgrep_metadata { results := some rs } =
      Except.ok (dedupMessages (rs.map SemgrepResult.message)) ∧
    (∀ m : Str, (dedupMessages (rs.map SemgrepResult.message)).countP
        (fun x => decide (x = m)) =
      if m ∈ rs.map SemgrepResult.message then 1 else 0) ∧
    (dedupMessages (rs.map SemgrepResult.message)).Pairwise
      (fun a b => firstIdx a (rs.map SemgrepResult.message) <
        firstIdx b (rs.map SemgrepResult.message)) := by
  refine ⟨rfl, ?_, ?_⟩
  · intro m
    have hnd : (dedupMessages (rs.map SemgrepResult.message)).Nodup :=
      nodup_foldl_dedupStep _ [] List.nodup_nil
    have hmemiff : m ∈ dedupMessages (rs.map SemgrepResult.message) ↔
        m ∈ rs.map SemgrepResult.message := by
      unfold dedupMessages
      rw [mem_foldl_dedupStep]
      simp
    by_cases hmem : m ∈ rs.map SemgrepResult.message
    · rw [if_pos hmem]
      exact countP_eq_one_of_nodup_mem hnd (hmemiff.mpr hmem)
    · rw [if_neg hmem]
      rw [List.countP_eq_zero]
      intro a ha
      simp only [decide_eq_true_eq]
      exact fun hc => hmem (hmemiff.mp (hc ▸ ha))
  · exact pairwise_foldl_dedupStep _ _ [] [] rfl (by simp) List.Pairwise.nil

/-- Every release identifier in the invocation trace comes from an eligible
row: releases with `uploaded_to_s3 = false` or already-analyzed identifiers
are never fetched. -/
theorem processFrom_trace_eligible (env : Env) (analyzed : List Str) :
    ∀ (rows : List Row) (s : Scratch) (acc : List AnalysisRecord) (tr : List Str),
      ∀ rid ∈ (processFrom env analyzed rows s acc tr).2,
        rid ∈ tr ∨ ∃ row ∈ rows, eligible analyzed row = true ∧ row.release_id = rid := by
  intro rows
  induction rows with
  | nil => intro s acc tr rid h; exact Or.inl h
  | cons row rest ih =>
    intro s acc tr rid h
    by_cases he : eligible analyzed row = true
    · rcases hp : analyze_extension env row s with ⟨res, s2⟩
      cases res with
      | error e =>
        simp only [processFrom, he, if_true, hp] at h
        rcases List.mem_append.mp h with h2 | h2
        · exact Or.inl h2
        · rw [List.mem_singleton] at h2
          exact Or.inr ⟨row, List.mem_cons_self row rest, he, h2.symm⟩
      | ok rec =>
        simp only [processFrom, he, if_true, hp] at h
        rcases ih s2 (acc ++ [rec]) (tr ++ [row.release_id]) rid h with h2 | h2
        · rcases List.mem_append.mp h2 with h3 | h3
          · exact Or.inl h3
          · rw [List.mem_singleton] at h3
            exact Or.inr ⟨row, List.mem_cons_self row rest, he, h3.symm⟩
        · rcases h2 with ⟨row2, hmem, helig2, hid⟩
          exact Or.inr ⟨row2, List.mem_cons_of_mem row hmem, helig2, hid⟩
    · have he2 : eligible analyzed row = false := by simpa using he
      simp only [processFrom, he2, Bool.false_eq_true, if_false] at h
      rcases ih s acc tr rid h with h2 | h2
      · exact Or.inl h2
      · rcases h2 with ⟨row2, hmem, helig2, hid⟩
        exact Or.inr ⟨row2, List.mem_cons_of_mem row hmem, helig2, hid⟩

/-- When every eligible row's pipeline succeeds (from an empty scratch
area), the loop produces exactly the eligible rows' records in order, and
invokes the pipeline exactly on the eligible rows. -/
theorem processFrom_all_ok (env : Env) (analyzed : List Str) :
    ∀ (rows : List Row) (acc : List AnalysisRecord) (tr : List Str),
      (∀ row ∈ rows, eligible analyzed row = true →
        isOkE (analyze_extension env row emptyScratch).1 = true) →
      processFrom env analyzed rows emptyScratch acc tr =
        (Except.ok (acc ++ (rows.filter (eligible analyzed)).filterMap
            (fun row => okPart (analyze_extension env row emptyScratch).1)),
          tr ++ (rows.filter (eligible analyzed)).map Row.release_id) := by
  intro rows
  induction rows with
  | nil => intro acc tr _; simp [processFrom]
  | cons row rest ih =>
    intro acc tr hok
    by_cases he : eligible analyzed row = true
    · have hok1 := hok row (List.mem_cons_self row rest) he
      rcases hp : analyze_extension env row emptyScratch with ⟨res, s2⟩
      cases res with
      | error e => rw [hp] at hok1; simp [isOkE] at hok1
      | ok rec =>
        have hs2 : s2 = emptyScratch := by
          have hcl := analyze_ok_clears env row emptyScratch (by rw [hp]; rfl)
          rw [hp] at hcl
          exact hcl
        subst hs2
        simp only [processFrom, he, if_true, hp]
        rw [ih (acc ++ [rec]) (tr ++ [row.release_id])
          (fun r2 hmem he2 => hok r2 (List.mem_cons_of_mem row hmem) he2)]
        simp [List.filter_cons, he, hp, okPart]
    · have he2 : eligible analyzed row = false := by simpa using he
      simp only [processFrom, he2, Bool.false_eq_true, if_false]
      rw [ih acc tr (fun r2 hmem hel => hok r2 (List.mem_cons_of_mem row hmem) hel)]
      simp [List.filter_cons, he2]

/-- C7: a release is fetched and analyzed only if it is uploaded to S3 and
not already analyzed (so an `uploaded = false` or already-analyzed release
is never fetched), and when every eligible release's pipeline succeeds the
produced batch consists of exactly the eligible releases' records — the
eligibility test is an "if and only if". -/
theorem c7_eligibility_filter (env : Env) (analyzed : List Str) (rows : List Row) :
    (∀ rid ∈ (mainAnalyze env analyzed rows).2,
      ∃ row ∈ rows, eligible analyzed row = true ∧ row.release_id = rid) ∧
    ((∀ row ∈ rows, eligible analyzed row = true →
        isOkE (analyze_extension env row emptyScratch).1 = true) →
      mainAnalyze env analyzed rows =
        (Except.ok ((rows.filter (eligible analyzed)).filterMap
            (fun row => okPart (analyze_extension env row emptyScratch).1)),
          (rows.filter (eligible analyzed)).map Row.release_id)) := by
  constructor
  · intro rid h
    rcases processFrom_trace_eligible env analyzed rows emptyScratch [] [] rid h with h2 | h2
    · cases h2
    · exact h2
  · intro hok
    unfold mainAnalyze
    rw [processFrom_all_ok env analyzed rows [] [] hok]
    simp

/-- Witness for `c7_eligibility_filter`: `r2` (uploaded, unanalyzed)
succeeds and is the only release fetched or recorded; `r3` (not uploaded)
and `r1` (already analyzed) are filtered out. -/
theorem c7_eligibility_filter_witness :
    (∀ row ∈ [rowR3, rowR1, rowR2], eligible ["r1".data] row = true →
      isOkE (analyze_extension envGood row emptyScratch).1 = true) ∧
    mainAnalyze envGood ["r1".data] [rowR3, rowR1, rowR2] =
      (Except.ok [recGood], ["r2".data]) := by
  refine ⟨by decide, ?_⟩
  have h := (c7_eligibility_filter envGood ["r1".data] [rowR3, rowR1, rowR2]).2 (by decide)
  rw [h]
  rfl

/-- `splitext` splits its input: root and extension concatenate back to it. -/
theorem splitext_shape (p : Str) : (splitext p).1 ++ (splitext p).2 = p := by
  unfold splitext
  split
  · simp
  · dsimp only
    split
    · simp [List.take_append_drop]
    · simp

/-- `str.replace(pat, "")` on a string whose only occurrence of `pat` is a
final one deletes exactly that suffix. -/
theorem replaceAux_unique_suffix (pat : Str) (hp : pat ≠ []) :
    ∀ (fuel : Nat) (l A : Str), l.length ≤ fuel → l = A ++ pat →
      (∀ i, i < l.length → pat.isPrefixOf (l.drop i) = true →
        i + pat.length = l.length) →
      replaceAux pat [] fuel l = A := by
  intro fuel
  induction fuel with
  | zero =>
    intro l A hlen heq huniq
    have hnil : l = [] := List.length_eq_zero.mp (Nat.le_zero.mp hlen)
    subst hnil
    rcases List.append_eq_nil.mp heq.symm with ⟨-, hpat⟩
    exact absurd hpat hp
  | succ fuel ih =>
    intro l A hlen heq huniq
    cases l with
    | nil =>
      rcases List.append_eq_nil.mp heq.symm with ⟨-, hpat⟩
      exact absurd hpat hp
    | cons c rest =>
      unfold replaceAux
      by_cases hpre : pat.isPrefixOf (c :: rest) = true ∧ pat ≠ []
      · rw [if_pos hpre]
        have h0 := huniq 0 (by simp) (by simpa using hpre.1)
        have hlenEq : pat.length = (c :: rest).length := by simpa using h0
        have hAlen : A.length = 0 := by
          have hl := congrArg List.length heq
          rw [List.length_append] at hl
          omega
        have hA : A = [] := List.length_eq_zero.mp hAlen
        subst hA
        rw [List.nil_append] at heq
        have hdrop : (c :: rest).drop pat.length = [] := by
          rw [heq, List.drop_length]
        rw [hdrop]
        simp [replaceAux]
      · rw [if_neg hpre]
        have hnpre : ¬ pat.isPrefixOf (c :: rest) = true := fun hc => hpre ⟨hc, hp⟩
        cases A with
        | nil =>
          rw [List.nil_append] at heq
          exact absurd (by rw [heq]; exact List.isPrefixOf_iff_prefix.mpr (List.prefix_refl pat)) hnpre
        | cons a A2 =>
          have hca : c = a ∧ rest = A2 ++ pat := by
            rw [List.cons_append] at heq
            exact ⟨(List.cons.injEq _ _ _ _ ▸ heq).1, (List.cons.injEq _ _ _ _ ▸ heq).2⟩
          rw [hca.1]
          congr 1
          refine ih rest A2 ?_ hca.2 ?_
          · have : (c :: rest).length ≤ fuel + 1 := hlen
            simp at this
            omega
          · intro i hi hpi
            have := huniq (i + 1) (by simp; omega) (by simpa using hpi)
            simp at this ⊢
            omega

/-- C10: for an object key of the canonical form (it starts with
`extensions/`) whose final extension is `.vsix` and in which the substring
`.vsix` occurs nowhere else, the directory `unzip_vsix_file` extracts into
(key with its extension split off, joined under `extensions/unzipped`)
equals the directory `find_package_json` walks (key with `.vsix` replaced by
the empty string appended to `extensions/unzipped/`): the manifest search
runs over exactly the extracted tree. -/
theorem c10_unzip_and_find_agree (key : Str)
    (h0 : "extensions/".data.isPrefixOf key = true)
    (h1 : (splitext key).2 = ".vsix".data)
    (h2 : ∀ i, i < key.length → ".vsix".data.isPrefixOf (key.drop i) = true →
      i + 5 = key.length) :
    unzipFolder key = findFolder key := by
  have hshape := splitext_shape key
  rw [h1] at hshape
  have hrep : replaceList ".vsix".data [] key = (splitext key).1 := by
    unfold replaceList
    refine replaceAux_unique_suffix ".vsix".data (by decide) key.length key
      (splitext key).1 le_rfl hshape.symm ?_
    intro i hi hpi
    exact h2 i hi hpi
  have hkeyform : ∃ t, key = 'e' :: t := by
    cases hk : key with
    | nil => rw [hk] at h0; simp [List.isPrefixOf] at h0
    | cons c t =>
      rw [hk] at h0
      have hc : c = 'e' := by
        by_contra hne
        have : ('e' == c) = false := by
          simp only [beq_eq_false_iff_ne]
          exact fun hc2 => hne hc2.symm
        simp [List.isPrefixOf, this] at h0
      exact ⟨t, by rw [hc]⟩
  obtain ⟨t, ht⟩ := hkeyform
  have hAhead : (splitext key).1.head? = some 'e' := by
    cases hA : (splitext key).1 with
    | nil =>
      rw [hA, List.nil_append] at hshape
      rw [ht] at hshape
      cases hshape
    | cons a A2 =>
      rw [hA, List.cons_append] at hshape
      rw [ht] at hshape
      have := (List.cons.injEq _ _ _ _ ▸ hshape).1
      simp [this]
  unfold unzipFolder findFolder pathJoin
  rw [hrep]
  have hne : (splitext key).1.head? ≠ some '/' := by
    rw [hAhead]
    simp
  rw [if_neg hne]
  have hdirs : "extensions/unzipped/".data =
      "extensions/unzipped".data ++ ['/'] := by decide
  rw [hdirs, List.append_assoc]
  rfl

/-- Witness for `c10_unzip_and_find_agree`: the key of release `r1`. -/
theorem c10_unzip_and_find_agree_witness :
    "extensions/".data.isPrefixOf keyR1 = true ∧
    (splitext keyR1).2 = ".vsix".data ∧
    (∀ i, i < keyR1.length → ".vsix".data.isPrefixOf (keyR1.drop i) = true →
      i + 5 = keyR1.length) ∧
    unzipFolder keyR1 = findFolder keyR1 :=
  ⟨by decide, by decide, by decide,
    c10_unzip_and_find_agree keyR1 (by decide) (by decide) (by decide)⟩
